import Mathlib

/-!
Shallow embedding of the WTC parking bot's reservation/waitlist engine
(`src/database.js`, `src/parkingManager.js`, `src/queueManager.js`,
`src/bot.js`) and proofs about the spec's claims.

Modelling conventions:
* Dates are absolute day indices (`Int`).  The source stores dates as
  `YYYY-MM-DD` TEXT and compares them with SQLite string comparison, which
  on well-formed ISO dates coincides with day order, so `≤` on day indices
  is a faithful image of the source's date comparisons.
* Day-of-week follows moment.js: `0 = Sunday, …, 5 = Friday, 6 = Saturday`;
  a day index `d` has day-of-week `d.emod 7` (we fix the epoch so that day
  0 is a Sunday).  `moment().day(n)` (also for `n < 0` or `n > 6`) sets the
  day within the Sunday-based week containing the instant and bubbles to
  other weeks, i.e. it yields `d - d.emod 7 + n`.
* Spot identifiers and user identities are modelled as `Nat`; the order on
  `Nat` stands for the ascending identifier order used by `ORDER BY number`.
* Table rows are lists in rowid (insertion) order.  Columns that never
  influence control flow (display-name snapshots, created_at, chat ids,
  timestamps) are omitted.
* Fallible SQLite inserts (UNIQUE constraint violations) are modelled with
  `Option`: `none` is the rejected promise.
-/

namespace Parking

/-- A row of the `reservations` table: `UNIQUE(user_id, date)`,
`UNIQUE(date, spot_number)`. -/
structure Resv where
  user : Nat
  date : Int
  spot : Nat
deriving DecidableEq, Repr

/-- A row of the `waitlist` table: `UNIQUE(user_id, date)`. -/
structure WEntry where
  user : Nat
  date : Int
  pos : Nat
deriving DecidableEq, Repr

/-- A row of the `fixed_spot_releases` table. -/
structure FRelease where
  spot : Nat
  startD : Int
  endD : Int
deriving DecidableEq, Repr

/-- The persistent state: the four tables the engine's claims touch.
`parkingSpots` is the flex pool (`parking_spots`, every row has
`active = 1`: rows are only ever inserted with the default), `fixedSpots`
is the `fixed_spots` table. -/
structure DB where
  parkingSpots : List Nat
  fixedSpots : List Nat
  reservations : List Resv
  waitlist : List WEntry
  releases : List FRelease
deriving DecidableEq, Repr

namespace DB

/-- Database.setParkingSpots: `DELETE FROM parking_spots` then insert the
given numbers.  Touches no other table. -/
def setParkingSpots (s : DB) (numbers : List Nat) : DB :=
  { s with parkingSpots := numbers }

/-- Database.getReservation: `SELECT * FROM reservations WHERE user_id = ?
AND date = ?`. -/
def getReservation (s : DB) (userId : Nat) (date : Int) : Option Resv :=
  s.reservations.find? (fun r => r.user = userId && r.date = date)

/-- Database.createReservation: `INSERT INTO reservations …`.  The insert
appends a row; it is only issued by callers that already hold the UNIQUE
preconditions (see `ParkingManager.reserveSpot`,
`QueueManager.processQueuedReservation`). -/
def createReservation (s : DB) (userId : Nat) (date : Int) (spot : Nat) : DB :=
  { s with reservations := s.reservations ++ [⟨userId, date, spot⟩] }

/-- Database.deleteReservation: `DELETE FROM reservations WHERE user_id = ?
AND date = ?`. -/
def deleteReservation (s : DB) (userId : Nat) (date : Int) : DB :=
  { s with reservations :=
      s.reservations.filter (fun r => !(r.user = userId && r.date = date)) }

/-- Whether some reservation row occupies `(date, spot)`. -/
def reservedB (s : DB) (date : Int) (spot : Nat) : Bool :=
  s.reservations.any (fun r => r.date = date && r.spot = spot)

/-- Helper for `distinctFirst`: emit elements not yet seen. -/
def distinctFirstAux : List Nat → List Nat → List Nat
  | [], _ => []
  | x :: xs, seen =>
    if x ∈ seen then distinctFirstAux xs seen
    else x :: distinctFirstAux xs (x :: seen)

/-- Keep the first occurrence of every element, in scan order: the image of
SQL `DISTINCT` over a table scanned in rowid order. -/
def distinctFirst (l : List Nat) : List Nat := distinctFirstAux l []

/-- Database.getReleasedFixedSpots: `SELECT DISTINCT spot_number FROM
fixed_spot_releases WHERE ? BETWEEN start_date AND end_date`.  The query
has no ORDER BY; the rows come back in table-scan (rowid) order. -/
def getReleasedFixedSpots (s : DB) (date : Int) : List Nat :=
  distinctFirst ((s.releases.filter
    (fun r => r.startD ≤ date && date ≤ r.endD)).map (·.spot))

/-- The flex-pool half of Database.getAvailableSpot: `SELECT ps.number …
LEFT JOIN reservations … WHERE ps.active = 1 AND r.id IS NULL ORDER BY
ps.number LIMIT 1` — the unreserved flex spots in ascending identifier
order. -/
def flexFree (s : DB) (date : Int) : List Nat :=
  ((s.parkingSpots.insertionSort (· ≤ ·)).filter (fun n => !s.reservedB date n))

/-- The released-fixed-spot half of Database.getAvailableSpot: the loop
over `getReleasedFixedSpots` keeping spots with no reservation row for the
date. -/
def releasedFree (s : DB) (date : Int) : List Nat :=
  (s.getReleasedFixedSpots date).filter (fun n => !s.reservedB date n)

/-- Database.getAvailableSpot: first unreserved flex spot in ascending
identifier order, else the first unreserved released fixed spot in scan
order, else `null`. -/
def getAvailableSpot (s : DB) (date : Int) : Option Nat :=
  match s.flexFree date with
  | n :: _ => some n
  | [] => (s.releasedFree date).head?

/-- Positions of the waitlist rows for one date, in rowid order. -/
def posList (s : DB) (date : Int) : List Nat :=
  (s.waitlist.filter (fun w => w.date = date)).map (·.pos)

/-- Database.addToWaitlist: `SELECT COALESCE(MAX(position), 0) + 1 … WHERE
date = ?` then `INSERT INTO waitlist …`.  `none` is the rejected promise
when the insert violates `UNIQUE(user_id, date)`. -/
def addToWaitlist (s : DB) (userId : Nat) (date : Int) : Option DB :=
  if s.waitlist.any (fun w => w.user = userId && w.date = date) then
    none
  else
    some { s with waitlist :=
      s.waitlist ++ [⟨userId, date, (s.posList date).foldr max 0 + 1⟩] }

/-- Database.getNextInWaitlist: `SELECT * FROM waitlist WHERE date = ?
ORDER BY position LIMIT 1`. -/
def getNextInWaitlist (s : DB) (date : Int) : Option WEntry :=
  (s.waitlist.filter (fun w => w.date = date)).foldr
    (fun w acc => match acc with
      | none => some w
      | some b => if w.pos ≤ b.pos then some w else some b)
    none

/-- Database.removeFromWaitlist: look the user's row up; when absent,
resolve 0 and touch nothing.  When present, delete the row and run `UPDATE
waitlist SET position = position - 1 WHERE date = ? AND position > ?`,
resolving with the UPDATE's change count. -/
def removeFromWaitlist (s : DB) (userId : Nat) (date : Int) : Nat × DB :=
  match s.waitlist.find? (fun w => w.user = userId && w.date = date) with
  | none => (0, s)
  | some e =>
    (((s.waitlist.filter (fun w => !(w.user = userId && w.date = date))).filter
        (fun w => w.date = date && e.pos < w.pos)).length,
     { s with waitlist :=
        ((s.waitlist.filter (fun w => !(w.user = userId && w.date = date))).map
          (fun w => if w.date = date && e.pos < w.pos then
              { w with pos := w.pos - 1 } else w)) })

/-- Database.clearAllReservations: `DELETE FROM reservations` then `DELETE
FROM waitlist` — every row of both tables, whatever its date. -/
def clearAllReservations (s : DB) : DB :=
  { s with reservations := [], waitlist := [] }

/-- Database.isFixedSpot: `SELECT spot_number FROM fixed_spots WHERE
spot_number = ?`. -/
def isFixedSpot (s : DB) (spot : Nat) : Bool :=
  s.fixedSpots.any (· = spot)

/-- Database.releaseFixedSpot: `INSERT INTO fixed_spot_releases …` — an
unconditional append (the fixed-pool membership check lives in the command
handler, see `handleFixedRelease`). -/
def releaseFixedSpot (s : DB) (spot : Nat) (startD endD : Int) : DB :=
  { s with releases := s.releases ++ [⟨spot, startD, endD⟩] }

/-- Database.resetCurrentWeekReservations: compute Monday and Friday of
the week containing `now` (`now.clone().day(1)` / `now.clone().day(5)`)
and delete the reservation and waitlist rows whose date lies in that span,
returning both change counts. -/
def resetCurrentWeekReservations (s : DB) (nowDay : Int) :
    DB × Nat × Nat :=
  let weekStart := nowDay - nowDay.emod 7 + 1
  let weekEnd := nowDay - nowDay.emod 7 + 5
  let inWeek : Int → Bool := fun d => weekStart ≤ d && d ≤ weekEnd
  ({ s with
      reservations := s.reservations.filter (fun r => !inWeek r.date),
      waitlist := s.waitlist.filter (fun w => !inWeek w.date) },
   (s.reservations.filter (fun r => inWeek r.date)).length,
   (s.waitlist.filter (fun w => inWeek w.date)).length)

end DB

/-- An instant of the fixed civil timezone: absolute day index plus wall
clock hour and minute (seconds are always zeroed where the source compares
instants that matter to the claims). -/
structure Mom where
  d : Int
  h : Nat
  min : Nat
deriving DecidableEq, Repr

namespace Mom

/-- moment `.day()`: day of week, 0 = Sunday … 6 = Saturday.  Day index 0
is fixed to be a Sunday. -/
def dow (day : Int) : Int := day.emod 7

/-- moment `.day(n)` on an instant of day `day`: the day with that
day-of-week inside the Sunday-based week containing `day`, bubbling to
neighbouring weeks for `n < 0` or `n > 6`. -/
def setDow (day n : Int) : Int := day - day.emod 7 + n

/-- moment `.isAfter` at full precision: strict lexicographic order on
(day, hour, minute). -/
def isAfter (a b : Mom) : Bool :=
  b.d < a.d || (a.d = b.d && (b.h < a.h || (a.h = b.h && b.min < a.min)))

end Mom

/-- Outcome of ParkingManager.reserveSpot, keyed by which branch built the
returned object. -/
inductive RRes where
  /-- Returned object `success: false, message: "Ya tienes reservado el estacionamiento …"`. -/
  | alreadyReserved (spot : Nat)
  /-- Returned object `success: true, spotNumber`. -/
  | confirmed (spot : Nat)
  /-- Returned object `success: false, waitlist: true`. -/
  | waitlistOffer
deriving DecidableEq, Repr

namespace ParkingManager

/-- ParkingManager.reserveSpot: reject when the user already holds the
date, otherwise take `getAvailableSpot` and record the reservation, else
offer the waitlist. -/
def reserveSpot (s : Parking.DB) (userId : Nat) (date : Int) :
    RRes × Parking.DB :=
  match s.getReservation userId date with
  | some existing => (.alreadyReserved existing.spot, s)
  | none =>
    match s.getAvailableSpot date with
    | some spot => (.confirmed spot, s.createReservation userId date spot)
    | none => (.waitlistOffer, s)

/-- ParkingManager.releaseSpot. -/
def releaseSpot (s : Parking.DB) (userId : Nat) (date : Int) :
    Option Nat × Parking.DB :=
  match s.getReservation userId date with
  | none => (none, s)
  | some r => (some r.spot, s.deleteReservation userId date)

/-- ParkingManager.addToWaitlist: a plain delegation to
Database.addToWaitlist, with no check of the reservations table. -/
def addToWaitlist (s : Parking.DB) (userId : Nat) (date : Int) :
    Option Parking.DB :=
  s.addToWaitlist userId date

/-- ParkingManager.setParkingSpots: `clearAllReservations()` first
("Primero limpiar todas las reservas"), then the database-level
replacement. -/
def setParkingSpots (s : Parking.DB) (numbers : List Nat) : Parking.DB :=
  (s.clearAllReservations).setParkingSpots numbers

end ParkingManager

namespace QueueManager

/-- QueueManager.isInQueuePeriod: Friday, 17:00–17:14. -/
def isInQueuePeriod (now : Mom) : Bool :=
  Mom.dow now.d = 5 && now.h = 17 && now.min < 15

/-- QueueManager.isNextWeekReservation: compute the "next reset"
(today 17:00 when `now` is a Friday before 17:00, otherwise
`now.day(5 + 7)` at 17:00), then test whether the target lies in
`[nextReset + 3 days |>.day(1), nextReset + 1 week |>.day(5)]`. -/
def isNextWeekReservation (now : Mom) (target : Int) : Bool :=
  let nextResetD : Int :=
    if Mom.dow now.d = 5 && now.h < 17 then now.d
    else Mom.setDow now.d (5 + 7)
  let nextWeekStart := Mom.setDow (nextResetD + 3) 1
  let nextWeekEnd := Mom.setDow (nextResetD + 7) 5
  nextWeekStart ≤ target && target ≤ nextWeekEnd

/-- QueueManager.isNextWeekBookingAllowed: compute the last Friday-17:00
reset (today when `now` is Friday at/after 17:00, else `now.day(5 - 7)`),
and return `now.isAfter(lastReset)`.  The source also computes a
`nextReset` bound but never uses it. -/
def isNextWeekBookingAllowed (now : Mom) : Bool :=
  let lastReset : Mom :=
    if Mom.dow now.d = 5 && 17 ≤ now.h then ⟨now.d, 17, 0⟩
    else ⟨Mom.setDow now.d (5 - 7), 17, 0⟩
  now.isAfter lastReset

/-- The in-memory lottery state (`this.queues`): per-date buffers of the
user ids that asked, in arrival order. -/
structure Sys where
  db : Parking.DB
  queues : List (Int × List Nat)
deriving DecidableEq, Repr

/-- The buffered user list for a date (empty when the map has no entry). -/
def queueFor (sys : Sys) (date : Int) : List Nat :=
  match sys.queues.find? (fun q => q.1 = date) with
  | some q => q.2
  | none => []

/-- Replace (or create) the buffer of one date. -/
def setQueue (sys : Sys) (date : Int) (q : List Nat) : Sys :=
  { sys with queues :=
      if sys.queues.any (fun p => p.1 = date) then
        sys.queues.map (fun p => if p.1 = date then (p.1, q) else p)
      else sys.queues ++ [(date, q)] }

/-- Outcome of QueueManager.addToQueue.  Each constructor is one of the
two returned objects; the `Nat` of `queued` is the number interpolated
into "Posición en cola: ${queue.length}" (the only position the messages
ever carry). -/
inductive QueueRes where
  /-- Returned object `success: false, message: "Ya estás en la cola para …"` — the
  duplicate rejection; its message interpolates only the date. -/
  | alreadyQueued
  /-- Returned object `success: true, queued: true`, message ending in the position. -/
  | queued (position : Nat)
deriving DecidableEq, Repr

/-- The queue position a result's message reports, if any. -/
def reportedPosition : QueueRes → Option Nat
  | .alreadyQueued => none
  | .queued p => some p

/-- QueueManager.addToQueue: create the date's buffer when absent, reject
a user already buffered for the date, otherwise append and report the new
buffer length. -/
def addToQueue (sys : Sys) (userId : Nat) (date : Int) : QueueRes × Sys :=
  let q := queueFor sys date
  if q.any (· = userId) then (.alreadyQueued, sys)
  else (.queued (q.length + 1), setQueue sys date (q ++ [userId]))

end QueueManager

/-- A buffered lottery request: the fields of the queued object that
influence resolution (`userId`, `targetDate`). -/
structure Request where
  user : Nat
  date : Int
deriving DecidableEq, Repr

/-- Outcome of QueueManager.processQueuedReservation for one request. -/
inductive QRes where
  /-- Returned object `success: false, message: "Ya tienes reservado …"`. -/
  | hasRes (spot : Nat)
  /-- Returned object `success: true, spotNumber`. -/
  | assigned (spot : Nat)
  /-- Returned object `success: false, waitlist: true`. -/
  | waitlisted
  /-- The waitlist INSERT violated `UNIQUE(user_id, date)` and the
  rejection was caught by processQueue's try/catch, which records an
  error result and leaves the store untouched. -/
  | errorCaught
deriving DecidableEq, Repr

namespace QueueManager

/-- QueueManager.processQueuedReservation: skip users who already hold the
date, otherwise allocate via getAvailableSpot, otherwise enqueue on the
waitlist. -/
def processQueuedReservation (s : Parking.DB) (r : Request) :
    QRes × Parking.DB :=
  match s.getReservation r.user r.date with
  | some existing => (.hasRes existing.spot, s)
  | none =>
    match s.getAvailableSpot r.date with
    | some spot => (.assigned spot, s.createReservation r.user r.date spot)
    | none =>
      match s.addToWaitlist r.user r.date with
      | some s' => (.waitlisted, s')
      | none => (.errorCaught, s)

/-- QueueManager.processQueue's resolution loop: the buffer is first
randomly permuted, then each request is resolved in that order, one at a
time, threading the store.  The permutation is a parameter here; theorems
quantify over it. -/
def processQueue (s : Parking.DB) (shuffled : List Request) :
    List QRes × Parking.DB :=
  match shuffled with
  | [] => ([], s)
  | r :: rest =>
    let (res, s') := processQueuedReservation s r
    let (results, s'') := processQueue s' rest
    (res :: results, s'')

/-- Outcome of QueueManager.handleReservation, one constructor per
returned object. -/
inductive HRes where
  /-- Rejection "No puedes hacer reservas para fechas pasadas." -/
  | pastDate
  /-- Rejection "No se pueden hacer reservas para fines de semana." -/
  | weekendDate
  /-- Buffered in the lottery queue (`queued: true`). -/
  | queuedInLottery (position : Nat)
  /-- Duplicate lottery request ("Ya estás en la cola …"). -/
  | alreadyInLottery
  /-- Returned object `success: true, spotNumber`. -/
  | confirmed (spot : Nat)
  /-- Returned object `success: false, waitlist: true`. -/
  | waitlistOffer
  /-- Rejection "Ya tienes reservado el estacionamiento …". -/
  | alreadyReserved (spot : Nat)
  /-- Rejection "Las reservas para la próxima semana estarán disponibles después del
  viernes 17:00 …" — the next-cycle lock rejection. -/
  | nextCycleLocked
deriving DecidableEq, Repr

/-- Lift a ParkingManager.reserveSpot outcome to a handleReservation
outcome, as the wrapping code does. -/
def liftRRes : RRes → HRes
  | .alreadyReserved spot => .alreadyReserved spot
  | .confirmed spot => .confirmed spot
  | .waitlistOffer => .waitlistOffer

/-- QueueManager.handleReservation: past-date check, weekend check, then
the next-week branch (lottery buffer inside the queue period, immediate
booking when `isNextWeekBookingAllowed`, else the lock rejection), and
otherwise an immediate current-week booking. -/
def handleReservation (now : Mom) (sys : Sys) (userId : Nat)
    (target : Int) : HRes × Sys :=
  if target < now.d then (.pastDate, sys)
  else if Mom.dow target = 0 || Mom.dow target = 6 then (.weekendDate, sys)
  else if isNextWeekReservation now target then
    if isInQueuePeriod now then
      match addToQueue sys userId target with
      | (.alreadyQueued, sys') => (.alreadyInLottery, sys')
      | (.queued p, sys') => (.queuedInLottery p, sys')
    else if isNextWeekBookingAllowed now then
      let (res, db') := ParkingManager.reserveSpot sys.db userId target
      (liftRRes res, { sys with db := db' })
    else (.nextCycleLocked, sys)
  else
    let (res, db') := ParkingManager.reserveSpot sys.db userId target
    (liftRRes res, { sys with db := db' })

end QueueManager

namespace Bot

/-- bot.checkWeeklyReset: on the hourly tick, when it is Friday 17:00
(minute 0), run `parkingManager.clearAllReservations()` — which deletes
every reservation and waitlist row of every date. -/
def checkWeeklyReset (now : Mom) (s : Parking.DB) : Parking.DB :=
  if Mom.dow now.d = 5 && now.h = 17 && now.min = 0 then
    s.clearAllReservations
  else s

end Bot

/-- Whether the fixed-release command succeeded or was rejected. -/
inductive FixedRes where
  | ok
  | notFixedSpot
deriving DecidableEq, Repr

/-- Modelled from the spec: the FIXED_RELEASE command handler.  The intent
parser (`messageProcessor.js`) produces `FIXED_RELEASE` intents and the
integration tests exercise `isFixedSpot`/`releaseFixedSpot`, but the bot
revision that consumes the intent is not among the source files under
`src/`; per §4.5 of the spec, Release(spot, startDate, endDate) "requires
`spot` to be a member of the fixed pool; rejects with `NotFixedSpot`
otherwise", recording the interval only on success. -/
def handleFixedRelease (s : Parking.DB) (spot : Nat) (startD endD : Int) :
    FixedRes × Parking.DB :=
  if s.isFixedSpot spot then (.ok, s.releaseFixedSpot spot startD endD)
  else (.notFixedSpot, s)

/-! ### Fixture states used by concrete theorems.

Day indices are read against the epoch `day 0 = a Sunday`, so day 1–5 is a
Monday–Friday cycle, day 8–12 the next one. -/

/-- Two flex spots; a current-cycle (Thursday, day 4) reservation by user 1,
a next-cycle (Monday, day 8) reservation by user 2, and a current-cycle
waitlist entry by user 3. -/
def stC1 : Parking.DB :=
  { parkingSpots := [1, 2], fixedSpots := [],
    reservations := [⟨1, 4, 1⟩, ⟨2, 8, 2⟩],
    waitlist := [⟨3, 4, 1⟩], releases := [] }

/-- One free flex spot and an empty lottery buffer. -/
def sysC3 : QueueManager.Sys :=
  ⟨{ parkingSpots := [1], fixedSpots := [], reservations := [],
     waitlist := [], releases := [] }, []⟩

/-! ### Claims -/

/-- C1: the Cycle Reset that fires at the Friday cutover is
`bot.checkWeeklyReset`, which calls `clearAllReservations` — deleting every
reservation and waitlist row of *every* date, so the next-cycle reservation
`⟨2, 8, 2⟩` (Monday of the cycle that just opened) does not survive the
reset, contrary to the claim.  The repository's own week-scoped reset
`resetCurrentWeekReservations` (the one its integration tests exercise,
logging "Friday 5PM Reset") deletes exactly the ending Monday–Friday span
(days 1–5 when `now` is Friday day 5) and preserves the next-cycle row. -/
theorem C1_reset_timer_deletes_next_cycle_rows :
    (Bot.checkWeeklyReset ⟨5, 17, 0⟩ stC1).reservations = []
    ∧ (Bot.checkWeeklyReset ⟨5, 17, 0⟩ stC1).waitlist = []
    ∧ (stC1.resetCurrentWeekReservations 5).1.reservations = [⟨2, 8, 2⟩]
    ∧ (stC1.resetCurrentWeekReservations 5).1.waitlist = []
    ∧ (stC1.resetCurrentWeekReservations 5).2 = (1, 1) := by
  refine ⟨rfl, rfl, by decide, by decide, by decide⟩

/-- C2: the administrator operation that replaces the flex pool is
`ParkingManager.setParkingSpots`, which first runs
`clearAllReservations()`: every existing reservation and waitlist row is
deleted as a side effect, contrary to the claim (and to the repository's
test "should preserve reservations when setting new parking spots").
Only the storage-level replacement `Database.setParkingSpots` leaves the
reservations untouched. -/
theorem C2_setParkingSpots_clears_reservations (s : Parking.DB)
    (numbers : List Nat) :
    (ParkingManager.setParkingSpots s numbers).reservations = []
    ∧ (ParkingManager.setParkingSpots s numbers).waitlist = []
    ∧ (ParkingManager.setParkingSpots s numbers).parkingSpots = numbers
    ∧ (s.setParkingSpots numbers).reservations = s.reservations := by
  exact ⟨rfl, rfl, rfl, rfl⟩

/-- C3: a next-cycle request before the Friday-17:00 cutover is not
rejected.  With `now` = Wednesday 10:00 of the cycle Mon(1)–Fri(5) and
target = Monday (day 8) of the following cycle, `handleReservation`
treats the date as a current-week request (`isNextWeekReservation` only
recognises the week after the *next* Friday) and books it immediately;
with `now` = Friday 10:00 — still before the cutover — the request is
likewise booked because `isNextWeekBookingAllowed` only compares against
the *previous* Friday's reset.  The `NextCycleLocked` rejection the claim
requires is never produced. -/
theorem C3_next_cycle_not_locked_before_cutover :
    (QueueManager.handleReservation ⟨3, 10, 0⟩ sysC3 9 8).1
      = .confirmed 1
    ∧ (QueueManager.handleReservation ⟨3, 10, 0⟩ sysC3 9 8).2.db.reservations
      = [⟨9, 8, 1⟩]
    ∧ (QueueManager.handleReservation ⟨5, 10, 0⟩ sysC3 9 8).1
      = .confirmed 1 := by
  refine ⟨by decide, by decide, by decide⟩

/-- C9: the fixed-spot release operation succeeds exactly when the spot is
a member of the fixed pool; a rejection records nothing, a success records
exactly the one release row. -/
theorem C9_release_requires_fixed_pool (s : Parking.DB) (spot : Nat)
    (startD endD : Int) :
    ((handleFixedRelease s spot startD endD).1 = .ok ↔ spot ∈ s.fixedSpots)
    ∧ ((handleFixedRelease s spot startD endD).1 = .notFixedSpot →
        (handleFixedRelease s spot startD endD).2 = s)
    ∧ (spot ∈ s.fixedSpots →
        (handleFixedRelease s spot startD endD).2.releases
          = s.releases ++ [⟨spot, startD, endD⟩]) := by
  have hmem : s.isFixedSpot spot = true ↔ spot ∈ s.fixedSpots := by
    simp [Parking.DB.isFixedSpot]
  by_cases h : spot ∈ s.fixedSpots
  · have hb : s.isFixedSpot spot = true := hmem.mpr h
    rw [handleFixedRelease, if_pos hb]
    refine ⟨by simp [h], by simp, fun _ => rfl⟩
  · have hb : ¬ (s.isFixedSpot spot = true) := fun ht => h (hmem.mp ht)
    rw [handleFixedRelease, if_neg hb]
    refine ⟨by simp [h], fun _ => rfl, fun hc => absurd hc h⟩

/-- Fixture for the C9 witness: spot 7 is fixed, spot 9 is not. -/
def stC9 : Parking.DB :=
  { parkingSpots := [1], fixedSpots := [7], reservations := [],
    waitlist := [], releases := [] }

/-- C9 witness: concrete accepted and rejected releases. -/
theorem C9_release_requires_fixed_pool_witness :
    ((handleFixedRelease stC9 9 2 3).1 = .notFixedSpot →
      (handleFixedRelease stC9 9 2 3).2 = stC9)
    ∧ (7 ∈ stC9.fixedSpots →
        (handleFixedRelease stC9 7 2 3).2.releases = [⟨7, 2, 3⟩]) := by
  exact ⟨(C9_release_requires_fixed_pool stC9 9 2 3).2.1,
    fun h => (C9_release_requires_fixed_pool stC9 7 2 3).2.2 h⟩

/-! ### Allocator candidate list (C4, C5) -/

/-- The allocator's candidate spots for a date, in the order it scans
them: unreserved flex spots ascending, then unreserved released fixed
spots in release-row scan order.  `getAvailableSpot` returns the head. -/
def cand (s : Parking.DB) (date : Int) : List Nat :=
  s.flexFree date ++ s.releasedFree date

/-- Reservation rows for a date. -/
def resCount (s : Parking.DB) (d : Int) : Nat :=
  (s.reservations.filter (fun r => r.date = d)).length

/-- Waitlist rows for a date. -/
def waitCount (s : Parking.DB) (d : Int) : Nat :=
  (s.waitlist.filter (fun w => w.date = d)).length

/-- The allocator returns the head of its candidate list. -/
theorem getAvailableSpot_eq_head (s : Parking.DB) (date : Int) :
    s.getAvailableSpot date = (cand s date).head? := by
  unfold cand Parking.DB.getAvailableSpot
  cases h : s.flexFree date <;> simp

/-- Recording a reservation for `(d, spot)` marks exactly `spot` as also
reserved on date `d`. -/
theorem reservedB_createReservation (s : Parking.DB) (u : Nat) (d : Int)
    (spot n : Nat) :
    (s.createReservation u d spot).reservedB d n
      = (s.reservedB d n || decide (spot = n)) := by
  simp [Parking.DB.reservedB, Parking.DB.createReservation, List.any_append]

/-- Effect of a new reservation on the unreserved flex list. -/
theorem flexFree_createReservation (s : Parking.DB) (u : Nat) (d : Int)
    (spot : Nat) :
    (s.createReservation u d spot).flexFree d
      = (s.flexFree d).filter (fun n => !decide (spot = n)) := by
  show (s.parkingSpots.insertionSort (· ≤ ·)).filter _
      = ((s.parkingSpots.insertionSort (· ≤ ·)).filter _).filter _
  rw [List.filter_filter]
  refine List.filter_congr ?_
  intro n _
  rw [reservedB_createReservation]
  cases hr : s.reservedB d n <;> cases hd : decide (spot = n) <;> rfl

/-- Effect of a new reservation on the unreserved released-spot list. -/
theorem releasedFree_createReservation (s : Parking.DB) (u : Nat) (d : Int)
    (spot : Nat) :
    (s.createReservation u d spot).releasedFree d
      = (s.releasedFree d).filter (fun n => !decide (spot = n)) := by
  show (s.getReleasedFixedSpots d).filter _
      = ((s.getReleasedFixedSpots d).filter _).filter _
  rw [List.filter_filter]
  refine List.filter_congr ?_
  intro n _
  rw [reservedB_createReservation]
  cases hr : s.reservedB d n <;> cases hd : decide (spot = n) <;> rfl

/-- Effect of a new reservation on the candidate list. -/
theorem cand_createReservation (s : Parking.DB) (u : Nat) (d : Int)
    (spot : Nat) :
    cand (s.createReservation u d spot) d
      = (cand s d).filter (fun n => !decide (spot = n)) := by
  unfold cand
  rw [flexFree_createReservation, releasedFree_createReservation,
    List.filter_append]

/-- Allocating the head of a duplicate-free candidate list consumes
exactly that head. -/
theorem cand_consume (s : Parking.DB) (u : Nat) (d : Int) (spot : Nat)
    (cs : List Nat) (hnodup : (cand s d).Nodup)
    (hc : cand s d = spot :: cs) :
    cand (s.createReservation u d spot) d = cs := by
  rw [cand_createReservation, hc, List.filter_cons]
  have h1 : (!decide (spot = spot)) = false := by simp
  rw [h1]
  simp only [Bool.false_eq_true, if_false]
  refine List.filter_eq_self.mpr ?_
  intro a ha
  have hnotin : spot ∉ cs := by
    rw [hc] at hnodup
    exact (List.nodup_cons.mp hnodup).1
  have hne : spot ≠ a := fun he => hnotin (he ▸ ha)
  simp [hne]

/-- A new reservation by another user does not change a user's
reservation lookup. -/
theorem getReservation_createReservation_ne (s : Parking.DB)
    (u u' : Nat) (d d' : Int) (spot : Nat) (hne : u' ≠ u) :
    (s.createReservation u d spot).getReservation u' d'
      = s.getReservation u' d' := by
  unfold Parking.DB.getReservation Parking.DB.createReservation
  rw [List.find?_append]
  have : ([(⟨u, d, spot⟩ : Resv)].find?
      (fun r => r.user = u' && r.date = d')) = none := by
    simp [Ne.symm hne]
  rw [this, Option.or_none]

/-- Unfolding one step of the resolution loop's state. -/
theorem processQueue_cons_snd (s : Parking.DB) (r : Request)
    (rest : List Request) :
    (QueueManager.processQueue s (r :: rest)).2
      = (QueueManager.processQueue
          (QueueManager.processQueuedReservation s r).2 rest).2 := rfl

/-- C5 preconditions for a request list against a store. -/
structure LotteryPre (s : Parking.DB) (d : Int) (l : List Request) : Prop where
  dates : ∀ r ∈ l, r.date = d
  users : (l.map (·.user)).Nodup
  nores : ∀ r ∈ l, s.getReservation r.user d = none
  nowait : ∀ r ∈ l, ∀ w ∈ s.waitlist, ¬(w.user = r.user ∧ w.date = d)
  candNodup : (cand s d).Nodup

/-- Resolution-loop counting: sequentially resolving a request list whose
users are distinct, hold no reservation and no waitlist row for the date,
creates `min K N` reservations and `N - min K N` waitlist rows, where `K`
is the candidate count and `N` the request count. -/
theorem processQueue_counts_aux (l : List Request) (s : Parking.DB)
    (d : Int) (h : LotteryPre s d l) :
    resCount (QueueManager.processQueue s l).2 d
        = resCount s d + min (cand s d).length l.length
    ∧ waitCount (QueueManager.processQueue s l).2 d
        = waitCount s d + (l.length - min (cand s d).length l.length) := by
  induction l generalizing s with
  | nil => simp [QueueManager.processQueue]
  | cons r rest ih =>
    have hrd : r.date = d := h.dates r (List.mem_cons_self r rest)
    have hnor : s.getReservation r.user d = none :=
      h.nores r (List.mem_cons_self r rest)
    have husers_tail : (rest.map (·.user)).Nodup :=
      (List.nodup_cons.mp h.users).2
    have huser_head : r.user ∉ rest.map (·.user) :=
      (List.nodup_cons.mp h.users).1
    rcases hc : cand s d with _ | ⟨spot, cs⟩
    · -- no candidate: the request is waitlisted
      have havail : s.getAvailableSpot d = none := by
        rw [getAvailableSpot_eq_head, hc]; rfl
      have hanyF : (s.waitlist.any
          (fun w => w.user = r.user && w.date = d)) = false := by
        rw [List.any_eq_false]
        intro w hw
        simpa using h.nowait r (List.mem_cons_self r rest) w hw
      have hguard : ¬ (s.waitlist.any
          (fun w => w.user = r.user && w.date = d) = true) := by
        rw [hanyF]; exact Bool.false_ne_true
      set e : WEntry := ⟨r.user, d, (s.posList d).foldr max 0 + 1⟩ with he
      set s' : Parking.DB := { s with waitlist := s.waitlist ++ [e] } with hs'
      have hadd : s.addToWaitlist r.user d = some s' := by
        unfold Parking.DB.addToWaitlist
        rw [if_neg hguard]
      have hstep : QueueManager.processQueuedReservation s r
          = (.waitlisted, s') := by
        unfold QueueManager.processQueuedReservation
        rw [hrd, hnor, havail, hadd]
      have hpre : LotteryPre s' d rest := by
        refine ⟨fun x hx => h.dates x (List.mem_cons_of_mem r hx),
          husers_tail, fun x hx => ?_, fun x hx w hw => ?_, ?_⟩
        · exact h.nores x (List.mem_cons_of_mem r hx)
        · rcases List.mem_append.mp hw with hw1 | hw2
          · exact h.nowait x (List.mem_cons_of_mem r hx) w hw1
          · rcases List.mem_singleton.mp hw2 with rfl
            rintro ⟨hwu, -⟩
            have hru : r.user = x.user := hwu
            refine huser_head ?_
            rw [hru]
            exact List.mem_map_of_mem (·.user) hx
        · exact h.candNodup
      have hcand' : cand s' d = cand s d := rfl
      have ihres := (ih s' hpre).1
      have ihwait := (ih s' hpre).2
      rw [hcand', hc] at ihres ihwait
      have hres' : resCount s' d = resCount s d := rfl
      have hwait' : waitCount s' d = waitCount s d + 1 := by
        unfold waitCount
        show (List.filter _ (s.waitlist ++ [e])).length = _
        rw [List.filter_append, List.length_append]
        congr 1
        simp [he]
      have hsnd : (QueueManager.processQueuedReservation s r).2 = s' := by
        rw [hstep]
      constructor
      · rw [processQueue_cons_snd, hsnd, ihres, hres']
        simp
      · rw [processQueue_cons_snd, hsnd, ihwait, hwait']
        simp only [List.length_nil, List.length_cons]
        omega
    · -- a candidate exists: the request is assigned its head
      have havail : s.getAvailableSpot d = some spot := by
        rw [getAvailableSpot_eq_head, hc]; rfl
      set s' : Parking.DB := s.createReservation r.user d spot with hs'
      have hstep : QueueManager.processQueuedReservation s r
          = (.assigned spot, s') := by
        unfold QueueManager.processQueuedReservation
        rw [hrd, hnor, havail]
      have hcand' : cand s' d = cs :=
        cand_consume s r.user d spot cs h.candNodup hc
      have hpre : LotteryPre s' d rest := by
        refine ⟨fun x hx => h.dates x (List.mem_cons_of_mem r hx),
          husers_tail, fun x hx => ?_, fun x hx w hw => ?_, ?_⟩
        · rw [hs', getReservation_createReservation_ne]
          · exact h.nores x (List.mem_cons_of_mem r hx)
          · intro he
            exact huser_head (he ▸ List.mem_map_of_mem (·.user) hx)
        · exact h.nowait x (List.mem_cons_of_mem r hx) w hw
        · rw [hcand']
          have := h.candNodup
          rw [hc] at this
          exact (List.nodup_cons.mp this).2
      have ihres := (ih s' hpre).1
      have ihwait := (ih s' hpre).2
      rw [hcand'] at ihres ihwait
      have hres' : resCount s' d = resCount s d + 1 := by
        unfold resCount
        show (List.filter _ (s.reservations ++ [(⟨r.user, d, spot⟩ : Resv)])).length = _
        rw [List.filter_append, List.length_append]
        congr 1
        simp
      have hwait' : waitCount s' d = waitCount s d := rfl
      have hsnd : (QueueManager.processQueuedReservation s r).2 = s' := by
        rw [hstep]
      constructor
      · rw [processQueue_cons_snd, hsnd, ihres, hres']
        simp only [List.length_cons]
        omega
      · rw [processQueue_cons_snd, hsnd, ihwait, hwait']
        simp only [List.length_cons]
        omega

/-- Fixture for the C5 counterexample: no spots at all, and user 1 is
already on the waitlist for date 8. -/
def stC5 : Parking.DB :=
  { parkingSpots := [], fixedSpots := [], reservations := [],
    waitlist := [⟨1, 8, 1⟩], releases := [] }

/-- C5 counterexample: a buffer of N = 1 request from a user with no
reservation for the date, K = 0 available spots, K < N — yet resolution
creates 0 waitlist entries rather than N − K = 1: the user already has a
waitlist row, the INSERT violates `UNIQUE(user_id, date)`, and the
rejection is caught as an error result. -/
theorem C5_counterexample_waitlisted_requester :
    stC5.getReservation 1 8 = none
    ∧ (cand stC5 8).length = 0
    ∧ (QueueManager.processQueue stC5 [⟨1, 8⟩]).1 = [.errorCaught]
    ∧ waitCount (QueueManager.processQueue stC5 [⟨1, 8⟩]).2 8
        = waitCount stC5 8
    ∧ ¬ (waitCount (QueueManager.processQueue stC5 [⟨1, 8⟩]).2 8
        = waitCount stC5 8 + (1 - 0)) := by
  refine ⟨by decide, by decide, by decide, by decide, by decide⟩

/-- C5 (amended): for a buffer of N requests for a date from N distinct
users, each holding no Reservation *and no WaitlistEntry* for that date,
and K = candidate spots with K < N, resolving the buffer in any shuffled
order creates exactly K reservations and N − K waitlist rows for the
date; the counts depend only on K and N, never on the permutation. -/
theorem C5_lottery_counts (s : Parking.DB) (d : Int)
    (buffer shuffled : List Request)
    (hperm : shuffled.Perm buffer)
    (hdate : ∀ r ∈ buffer, r.date = d)
    (husers : (buffer.map (·.user)).Nodup)
    (hnores : ∀ r ∈ buffer, s.getReservation r.user d = none)
    (hnowait : ∀ r ∈ buffer, ∀ w ∈ s.waitlist,
      ¬(w.user = r.user ∧ w.date = d))
    (hnodup : (cand s d).Nodup)
    (hKN : (cand s d).length < buffer.length) :
    resCount (QueueManager.processQueue s shuffled).2 d
        = resCount s d + (cand s d).length
    ∧ waitCount (QueueManager.processQueue s shuffled).2 d
        = waitCount s d + (buffer.length - (cand s d).length) := by
  have hpre : LotteryPre s d shuffled :=
    { dates := fun r hr => hdate r (hperm.subset hr)
      users := ((hperm.map (·.user)).nodup_iff).mpr husers
      nores := fun r hr => hnores r (hperm.subset hr)
      nowait := fun r hr => hnowait r (hperm.subset hr)
      candNodup := hnodup }
  have hmain := processQueue_counts_aux shuffled s d hpre
  rw [hperm.length_eq] at hmain
  rw [Nat.min_eq_left (Nat.le_of_lt hKN)] at hmain
  exact hmain

/-- Fixture for the C5 witness: one flex spot, nothing reserved. -/
def stC5w : Parking.DB :=
  { parkingSpots := [4], fixedSpots := [], reservations := [],
    waitlist := [], releases := [] }

/-- C5 witness: two buffered requesters, one spot, resolved in reversed
(shuffled) order: one reservation and one waitlist row are created. -/
theorem C5_lottery_counts_witness :
    resCount (QueueManager.processQueue stC5w
        [(⟨2, 8⟩ : Request), ⟨1, 8⟩]).2 8
      = resCount stC5w 8 + (cand stC5w 8).length
    ∧ waitCount (QueueManager.processQueue stC5w
        [(⟨2, 8⟩ : Request), ⟨1, 8⟩]).2 8
      = waitCount stC5w 8
        + (([(⟨1, 8⟩ : Request), ⟨2, 8⟩]).length - (cand stC5w 8).length) :=
  C5_lottery_counts stC5w 8 [⟨1, 8⟩, ⟨2, 8⟩] [⟨2, 8⟩, ⟨1, 8⟩]
    (by decide) (by decide) (by decide) (by decide) (by decide)
    (by decide) (by decide)

/-! ### Allocator lemmas (C4) -/

/-- Membership in the unreserved flex list. -/
theorem mem_flexFree (s : Parking.DB) (date : Int) (n : Nat) :
    n ∈ s.flexFree date ↔
      n ∈ s.parkingSpots ∧ s.reservedB date n = false := by
  unfold Parking.DB.flexFree
  rw [List.mem_filter, (List.perm_insertionSort (· ≤ ·) s.parkingSpots).mem_iff]
  simp

/-- The unreserved flex list is sorted ascending. -/
theorem sorted_flexFree (s : Parking.DB) (date : Int) :
    (s.flexFree date).Sorted (· ≤ ·) :=
  (List.sorted_insertionSort (· ≤ ·) s.parkingSpots).sublist
    (List.filter_sublist _)

/-- The unreserved flex list is empty iff every pool spot is reserved. -/
theorem flexFree_eq_nil_iff (s : Parking.DB) (date : Int) :
    s.flexFree date = [] ↔
      ∀ n ∈ s.parkingSpots, s.reservedB date n = true := by
  rw [List.eq_nil_iff_forall_not_mem]
  constructor
  · intro h n hn
    by_contra hr
    exact h n ((mem_flexFree s date n).mpr
      ⟨hn, Bool.eq_false_iff.mpr hr⟩)
  · intro h n hn
    rcases (mem_flexFree s date n).mp hn with ⟨hmem, hfree⟩
    rw [h n hmem] at hfree
    simp at hfree

/-- Membership in the unreserved released-fixed-spot list. -/
theorem mem_releasedFree (s : Parking.DB) (date : Int) (n : Nat) :
    n ∈ s.releasedFree date ↔
      n ∈ s.getReleasedFixedSpots date ∧ s.reservedB date n = false := by
  unfold Parking.DB.releasedFree
  rw [List.mem_filter]
  simp

/-- Fixture for the C4 counterexample: the single flex spot 1 is reserved
for date 0; fixed spots 7 and 5 are both released for date 0, the release
row for 7 recorded first. -/
def stC4 : Parking.DB :=
  { parkingSpots := [1], fixedSpots := [7, 5], reservations := [⟨1, 0, 1⟩],
    waitlist := [], releases := [⟨7, 0, 0⟩, ⟨5, 0, 0⟩] }

/-- C4 counterexample: with the flex pool exhausted, the allocator returns
released spot 7 — the first release row in scan order — even though
released spot 5 is unreserved and lower, so the fixed-spot fallback is not
in ascending identifier order. -/
theorem C4_counterexample_fallback_not_ascending :
    stC4.getAvailableSpot 0 = some 7
    ∧ (∀ n ∈ stC4.parkingSpots, stC4.reservedB 0 n = true)
    ∧ 5 ∈ stC4.getReleasedFixedSpots 0
    ∧ stC4.reservedB 0 5 = false
    ∧ (5 : Nat) < 7 := by
  refine ⟨by decide, by decide, by decide, by decide, by decide⟩

/-- C4 (amended): the allocator returns the lowest unreserved flex spot
when one exists; when every flex spot is reserved it returns the first
unreserved released fixed spot in the order the release rows were recorded
(the DISTINCT scan order — not ascending identifier order); and it returns
`none` (a value, not an exception) exactly when both pools are exhausted
for the date. -/
theorem C4_allocator_flex_min_then_released_scan_order (s : Parking.DB)
    (date : Int) :
    (∀ n, n ∈ s.parkingSpots → s.reservedB date n = false →
      ∃ m, s.getAvailableSpot date = some m ∧ m ∈ s.parkingSpots
        ∧ s.reservedB date m = false
        ∧ ∀ k ∈ s.parkingSpots, s.reservedB date k = false → m ≤ k)
    ∧ ((∀ n ∈ s.parkingSpots, s.reservedB date n = true) →
        s.getAvailableSpot date = (s.releasedFree date).head?)
    ∧ (s.getAvailableSpot date = none ↔
        (∀ n ∈ s.parkingSpots, s.reservedB date n = true)
        ∧ ∀ n ∈ s.getReleasedFixedSpots date, s.reservedB date n = true) := by
  refine ⟨?_, ?_, ?_⟩
  · intro n hn hr
    rcases hflex : s.flexFree date with _ | ⟨m, rest⟩
    · exact absurd ((flexFree_eq_nil_iff s date).mp hflex n hn)
        (by rw [hr]; exact Bool.false_ne_true)
    · have hm : m ∈ s.flexFree date := by rw [hflex]; exact List.mem_cons_self m rest
      rcases (mem_flexFree s date m).mp hm with ⟨hmp, hmf⟩
      refine ⟨m, ?_, hmp, hmf, ?_⟩
      · unfold Parking.DB.getAvailableSpot
        rw [hflex]
      · intro k hk hkf
        have hkmem : k ∈ s.flexFree date :=
          (mem_flexFree s date k).mpr ⟨hk, hkf⟩
        rw [hflex] at hkmem
        rcases List.mem_cons.mp hkmem with h | h
        · exact h ▸ le_refl m
        · have hsorted := sorted_flexFree s date
          rw [hflex] at hsorted
          exact List.rel_of_sorted_cons hsorted k h
  · intro hall
    have hflex : s.flexFree date = [] := (flexFree_eq_nil_iff s date).mpr hall
    unfold Parking.DB.getAvailableSpot
    rw [hflex]
  · constructor
    · intro hnone
      rcases hflex : s.flexFree date with _ | ⟨m, rest⟩
      · refine ⟨(flexFree_eq_nil_iff s date).mp hflex, ?_⟩
        intro n hn
        unfold Parking.DB.getAvailableSpot at hnone
        rw [hflex] at hnone
        have hrel : s.releasedFree date = [] :=
          List.head?_eq_none_iff.mp hnone
        by_contra hr
        have : n ∈ s.releasedFree date :=
          (mem_releasedFree s date n).mpr ⟨hn, Bool.eq_false_iff.mpr hr⟩
        rw [hrel] at this
        exact List.not_mem_nil n this
      · unfold Parking.DB.getAvailableSpot at hnone
        rw [hflex] at hnone
        exact absurd hnone (by simp)
    · rintro ⟨hflexall, hrelall⟩
      have hflex : s.flexFree date = [] :=
        (flexFree_eq_nil_iff s date).mpr hflexall
      have hrel : s.releasedFree date = [] := by
        rw [List.eq_nil_iff_forall_not_mem]
        intro n hn
        rcases (mem_releasedFree s date n).mp hn with ⟨hmem, hfree⟩
        rw [hrelall n hmem] at hfree
        simp at hfree
      unfold Parking.DB.getAvailableSpot
      rw [hflex, hrel]
      rfl

/-- C4 witness: the amended claim applied to `stC4` (flex exhausted: the
fallback is the head of the released scan order) and to `stC1` (spot 1
free: the minimum unreserved flex spot is returned). -/
theorem C4_allocator_witness :
    stC4.getAvailableSpot 0 = (stC4.releasedFree 0).head?
    ∧ ∃ m, stC1.getAvailableSpot 0 = some m ∧ m ∈ stC1.parkingSpots
        ∧ stC1.reservedB 0 m = false
        ∧ ∀ k ∈ stC1.parkingSpots, stC1.reservedB 0 k = false → m ≤ k :=
  ⟨(C4_allocator_flex_min_then_released_scan_order stC4 0).2.1 (by decide),
   (C4_allocator_flex_min_then_released_scan_order stC1 0).1 1 (by decide)
     (by decide)⟩

/-! ### Waitlist invariant (C6)

The operations the claim ranges over: enqueue (`Database.addToWaitlist`),
remove (`Database.removeFromWaitlist`), and dequeue-head (the
release/notify flow: `getNextInWaitlist` followed by
`removeFromWaitlist` of the head's user, as in
`QueueManager.notifyWaitlist`). -/

/-- One waitlist operation. -/
inductive WOp where
  | enqueue (userId : Nat) (date : Int)
  | removeUser (userId : Nat) (date : Int)
  | dequeueHead (date : Int)
deriving DecidableEq, Repr

/-- Apply one waitlist operation to the store.  A failed enqueue (the
`UNIQUE(user_id, date)` rejection) leaves the store unchanged. -/
def applyWOp (s : Parking.DB) : WOp → Parking.DB
  | .enqueue u d =>
    match s.addToWaitlist u d with
    | some s' => s'
    | none => s
  | .removeUser u d => (s.removeFromWaitlist u d).2
  | .dequeueHead d =>
    match s.getNextInWaitlist d with
    | some e => (s.removeFromWaitlist e.user d).2
    | none => s

/-- Apply a sequence of waitlist operations. -/
def applyWOps (s : Parking.DB) (ops : List WOp) : Parking.DB :=
  ops.foldl applyWOp s

/-- Position list of a waitlist table for one date. -/
def wposList (l : List WEntry) (d : Int) : List Nat :=
  (l.filter (fun w => w.date = d)).map (·.pos)

/-- The `(user_id, date)` keys of a waitlist table. -/
def wkeys (l : List WEntry) : List (Nat × Int) :=
  l.map (fun w => (w.user, w.date))

/-- The waitlist invariant: keys are unique (`UNIQUE(user_id, date)`) and
the positions of every date form a contiguous `1..N` sequence (up to
order). -/
def winv (s : Parking.DB) : Prop :=
  (wkeys s.waitlist).Nodup
  ∧ ∀ d : Int, (wposList s.waitlist d).Perm
      (List.range' 1 (wposList s.waitlist d).length)

/-- The waitlist invariant, quantified only over the dates present (a
decidable statement equivalent to `winv`). -/
def winvB (s : Parking.DB) : Prop :=
  (wkeys s.waitlist).Nodup
  ∧ ∀ d ∈ s.waitlist.map (·.date), (wposList s.waitlist d).Perm
      (List.range' 1 (wposList s.waitlist d).length)

instance decidableWinvB (s : Parking.DB) : Decidable (winvB s) := by
  unfold winvB
  exact inferInstance

/-- Position lists of absent dates are empty. -/
theorem wposList_eq_nil_of_not_mem (l : List WEntry) (d : Int)
    (h : d ∉ l.map (·.date)) : wposList l d = [] := by
  unfold wposList
  have : l.filter (fun w => w.date = d) = [] := by
    rw [List.filter_eq_nil_iff]
    intro w hw
    simp only [decide_eq_true_eq]
    intro hd
    exact h (hd ▸ List.mem_map_of_mem (·.date) hw)
  rw [this]
  rfl

/-- The bounded and unbounded invariants agree. -/
theorem winvB_iff_winv (s : Parking.DB) : winvB s ↔ winv s := by
  unfold winvB winv
  refine and_congr_right fun _ => ⟨fun h d => ?_, fun h d _ => h d⟩
  by_cases hd : d ∈ s.waitlist.map (·.date)
  · exact h d hd
  · rw [wposList_eq_nil_of_not_mem s.waitlist d hd]
    exact List.Perm.refl []

/-- Position lists split over table concatenation. -/
theorem wposList_append (l₁ l₂ : List WEntry) (d : Int) :
    wposList (l₁ ++ l₂) d = wposList l₁ d ++ wposList l₂ d := by
  unfold wposList
  rw [List.filter_append, List.map_append]

/-- Permuted tables have permuted position lists. -/
theorem wposList_perm {l₁ l₂ : List WEntry} (h : l₁.Perm l₂) (d : Int) :
    (wposList l₁ d).Perm (wposList l₂ d) :=
  (h.filter _).map _

/-- The fold `foldr max` is invariant under permutation. -/
theorem foldr_max_perm {l l' : List Nat} (h : l.Perm l') :
    l.foldr max 0 = l'.foldr max 0 := by
  induction h with
  | nil => rfl
  | cons x _ ih => simp only [List.foldr_cons, ih]
  | swap x y l => simp only [List.foldr_cons]; omega
  | trans _ _ ih1 ih2 => exact ih1.trans ih2

/-- The fold `foldr max` over a nonempty `range'`. -/
theorem foldr_max_range'_aux : ∀ (n a : Nat),
    (List.range' a (n + 1)).foldr max 0 = a + n := by
  intro n
  induction n with
  | zero => intro a; simp
  | succ n ih =>
    intro a
    rw [List.range'_succ, List.foldr_cons, ih (a + 1)]
    omega

/-- The SQL `MAX(position)` of a contiguous `1..N` position list is `N`. -/
theorem foldr_max_of_perm_range' {P : List Nat} {N : Nat}
    (h : P.Perm (List.range' 1 N)) : P.foldr max 0 = N := by
  rw [foldr_max_perm h]
  cases N with
  | zero => rfl
  | succ n => rw [foldr_max_range'_aux n 1]; omega

/-- The renumbering map of `removeFromWaitlist` preserves the date
column. -/
theorem renumber_preserves_date (d : Int) (p : Nat) (w : WEntry) :
    (if w.date = d && p < w.pos then
      { w with pos := w.pos - 1 } else w).date = w.date := by
  by_cases hc : (w.date = d && p < w.pos) = true
  · rw [if_pos hc]
  · rw [if_neg hc]

/-- The renumbering map of `removeFromWaitlist` preserves the user
column. -/
theorem renumber_preserves_user (d : Int) (p : Nat) (w : WEntry) :
    (if w.date = d && p < w.pos then
      { w with pos := w.pos - 1 } else w).user = w.user := by
  by_cases hc : (w.date = d && p < w.pos) = true
  · rw [if_pos hc]
  · rw [if_neg hc]

/-- The renumbering map is the identity on rows of other dates. -/
theorem renumber_eq_self_of_ne (d : Int) (p : Nat) (w : WEntry)
    (h : ¬ (w.date = d)) :
    (if w.date = d && p < w.pos then
      { w with pos := w.pos - 1 } else w) = w := by
  rw [if_neg]
  simp [h]

/-- With unique keys, `find?` of a key splits the table, up to
permutation, into the found row and the key-filtered remainder. -/
theorem find_key_extract (l : List WEntry) (u : Nat) (d : Int)
    (e : WEntry) (hnodup : (wkeys l).Nodup)
    (hfind : l.find? (fun w => w.user = u && w.date = d) = some e) :
    l.Perm (e :: l.filter (fun w => !(w.user = u && w.date = d)))
    ∧ e.user = u ∧ e.date = d := by
  induction l with
  | nil => simp at hfind
  | cons w l' ih =>
    have hnodup' : (wkeys l').Nodup := (List.nodup_cons.mp hnodup).2
    cases hw : (w.user = u && w.date = d) with
    | true =>
      have hstep : List.find? (fun w => w.user = u && w.date = d) (w :: l')
          = some w := List.find?_cons_of_pos l' hw
      rw [hstep] at hfind
      have he : w = e := by injection hfind
      subst he
      have hwu : w.user = u ∧ w.date = d := by simpa using hw
      have hrest : l'.filter (fun x => !(x.user = u && x.date = d)) = l' := by
        rw [List.filter_eq_self]
        intro a ha
        rw [Bool.not_eq_true']
        cases hb : (a.user = u && a.date = d) with
        | false => rfl
        | true =>
          have hk' : a.user = u ∧ a.date = d := by simpa using hb
          have hkey : (w.user, w.date) ∈ wkeys l' := by
            unfold wkeys
            refine List.mem_map.mpr ⟨a, ha, ?_⟩
            rw [hk'.1, hk'.2, hwu.1, hwu.2]
          exact absurd hkey (List.nodup_cons.mp hnodup).1
      rw [List.filter_cons]
      have hwneg : (!(w.user = u && w.date = d)) = false := by rw [hw]; rfl
      rw [hwneg]
      simp only [Bool.false_eq_true, if_false]
      rw [hrest]
      exact ⟨List.Perm.refl _, hwu⟩
    | false =>
      have hwne : ¬ ((w.user = u && w.date = d) = true) := by
        rw [hw]; exact Bool.false_ne_true
      have hstep : List.find? (fun w => w.user = u && w.date = d) (w :: l')
          = List.find? (fun w => w.user = u && w.date = d) l' :=
        List.find?_cons_of_neg l' hwne
      rw [hstep] at hfind
      obtain ⟨hperm, heu, hed⟩ := ih hnodup' hfind
      refine ⟨?_, heu, hed⟩
      rw [List.filter_cons]
      have hwpos : (!(w.user = u && w.date = d)) = true := by rw [hw]; rfl
      rw [hwpos]
      simp only [if_true]
      exact (hperm.cons w).trans (List.Perm.swap e w _)

/-- Position list of a cons cell. -/
theorem wposList_cons (w : WEntry) (l : List WEntry) (d : Int) :
    wposList (w :: l) d
      = if w.date = d then w.pos :: wposList l d else wposList l d := by
  unfold wposList
  rw [List.filter_cons]
  by_cases hd : w.date = d
  · simp [hd]
  · simp [hd]

/-- The renumbering map rewrites the position list of the removed row's
date by the pointwise decrement-above-`p` function. -/
theorem wposList_map_renumber (l' : List WEntry) (d : Int) (p : Nat) :
    wposList (l'.map (fun w => if w.date = d && p < w.pos then
        { w with pos := w.pos - 1 } else w)) d
      = (wposList l' d).map (fun x => if p < x then x - 1 else x) := by
  induction l' with
  | nil => rfl
  | cons w t ih =>
    rw [List.map_cons, wposList_cons, renumber_preserves_date,
      wposList_cons]
    by_cases hd : w.date = d
    · rw [if_pos hd, if_pos hd, List.map_cons, ih]
      congr 1
      by_cases hp : p < w.pos
      · simp [hd, hp]
      · simp [hd, hp]
    · rw [if_neg hd, if_neg hd, ih]

/-- The renumbering map leaves other dates' position lists unchanged. -/
theorem wposList_map_renumber_other (l' : List WEntry) (d : Int) (p : Nat)
    (d' : Int) (hne : d' ≠ d) :
    wposList (l'.map (fun w => if w.date = d && p < w.pos then
        { w with pos := w.pos - 1 } else w)) d'
      = wposList l' d' := by
  induction l' with
  | nil => rfl
  | cons w t ih =>
    rw [List.map_cons, wposList_cons, renumber_preserves_date,
      wposList_cons]
    by_cases hw' : w.date = d'
    · rw [if_pos hw', if_pos hw', ih]
      congr 1
      have hwd : ¬ (w.date = d) := fun hc => hne (by rw [← hw', hc])
      rw [renumber_eq_self_of_ne d p w hwd]
    · rw [if_neg hw', if_neg hw', ih]

/-- Deleting rows of one key leaves other dates' position lists
unchanged. -/
theorem wposList_filter_key_other (l : List WEntry) (u : Nat) (d : Int)
    (d' : Int) (hne : d' ≠ d) :
    wposList (l.filter (fun w => !(w.user = u && w.date = d))) d'
      = wposList l d' := by
  induction l with
  | nil => rfl
  | cons w t ih =>
    rw [List.filter_cons]
    by_cases hk : (!(w.user = u && w.date = d)) = true
    · rw [if_pos hk, wposList_cons, wposList_cons, ih]
    · rw [if_neg hk]
      have hwd : w.date = d := by
        cases hb : (w.user = u && w.date = d) with
        | false =>
          exact absurd
            (show (!(w.user = u && w.date = d)) = true by rw [hb]; rfl) hk
        | true =>
          have hb' : w.user = u ∧ w.date = d := by simpa using hb
          exact hb'.2
      have hwd' : ¬ (w.date = d') := fun hc => hne (by rw [← hc, hwd])
      rw [wposList_cons, if_neg hwd', ih]

/-- Enqueue preserves the waitlist invariant: the new row gets position
`MAX + 1 = N + 1`, extending `1..N` to `1..N+1`; a rejected duplicate
leaves the store unchanged. -/
theorem winv_enqueue (s : Parking.DB) (u : Nat) (d : Int) (h : winv s) :
    winv (applyWOp s (.enqueue u d)) := by
  show winv (match s.addToWaitlist u d with | some s' => s' | none => s)
  cases hadd : s.addToWaitlist u d with
  | none => exact h
  | some s' =>
    unfold Parking.DB.addToWaitlist at hadd
    by_cases hg : (s.waitlist.any (fun w => w.user = u && w.date = d)) = true
    · rw [if_pos hg] at hadd
      exact absurd hadd (by simp)
    · rw [if_neg hg] at hadd
      have hs' : s' = { s with waitlist := s.waitlist
          ++ [⟨u, d, (s.posList d).foldr max 0 + 1⟩] } := by
        injection hadd with h1
        exact h1.symm
      subst hs'
      constructor
      · have hkey : (u, d) ∉ wkeys s.waitlist := by
          intro hmem
          rcases List.mem_map.mp hmem with ⟨w, hwmem, hwe⟩
          apply hg
          rw [List.any_eq_true]
          refine ⟨w, hwmem, ?_⟩
          have h1 : w.user = u := congrArg Prod.fst hwe
          have h2 : w.date = d := congrArg Prod.snd hwe
          simp [h1, h2]
        show (wkeys (s.waitlist ++ [⟨u, d, _⟩])).Nodup
        unfold wkeys at hkey ⊢
        rw [List.map_append, List.nodup_append]
        refine ⟨h.1, List.nodup_singleton _, ?_⟩
        intro a ha hb
        rw [List.map_singleton, List.mem_singleton] at hb
        subst hb
        exact hkey ha
      · intro d'
        show (wposList (s.waitlist ++ [⟨u, d, _⟩]) d').Perm _
        rw [wposList_append]
        by_cases hd : d = d'
        · subst hd
          have hsing : wposList [(⟨u, d,
              (s.posList d).foldr max 0 + 1⟩ : WEntry)] d
              = [(s.posList d).foldr max 0 + 1] := by
            rw [wposList_cons, if_pos rfl]
            rfl
          rw [hsing]
          have hM : (s.posList d).foldr max 0
              = (wposList s.waitlist d).length :=
            foldr_max_of_perm_range' (h.2 d)
          rw [List.length_append, List.length_singleton,
            List.range'_1_concat]
          have hval : (s.posList d).foldr max 0 + 1
              = 1 + (wposList s.waitlist d).length := by omega
          rw [hval]
          exact (h.2 d).append_right _
        · have hsing : wposList [(⟨u, d,
              (s.posList d).foldr max 0 + 1⟩ : WEntry)] d' = [] := by
            rw [wposList_cons, if_neg hd]
            rfl
          rw [hsing, List.append_nil]
          exact h.2 d'

/-- Removal preserves the waitlist invariant: deleting the position-`p`
row and decrementing every later position of the same date compacts
`1..N` to `1..N-1`; an absent user leaves the store unchanged. -/
theorem winv_removeFromWaitlist (s : Parking.DB) (u : Nat) (d : Int)
    (h : winv s) : winv (s.removeFromWaitlist u d).2 := by
  unfold Parking.DB.removeFromWaitlist
  cases hfind : s.waitlist.find? (fun w => w.user = u && w.date = d) with
  | none => exact h
  | some e =>
    obtain ⟨hperm, heu, hed⟩ := find_key_extract s.waitlist u d e h.1 hfind
    constructor
    · show (wkeys ((s.waitlist.filter
        (fun w => !(w.user = u && w.date = d))).map
          (fun w => if w.date = d && e.pos < w.pos then
            { w with pos := w.pos - 1 } else w))).Nodup
      have hkeysmap : wkeys ((s.waitlist.filter
          (fun w => !(w.user = u && w.date = d))).map
            (fun w => if w.date = d && e.pos < w.pos then
              { w with pos := w.pos - 1 } else w))
          = wkeys (s.waitlist.filter
              (fun w => !(w.user = u && w.date = d))) := by
        unfold wkeys
        rw [List.map_map]
        refine List.map_congr_left ?_
        intro w _
        show ((if w.date = d && e.pos < w.pos then
            { w with pos := w.pos - 1 } else w).user,
          (if w.date = d && e.pos < w.pos then
            { w with pos := w.pos - 1 } else w).date) = (w.user, w.date)
        rw [renumber_preserves_user, renumber_preserves_date]
      rw [hkeysmap]
      exact ((List.filter_sublist s.waitlist).map _).nodup h.1
    · intro d'
      by_cases hd : d = d'
      · subst hd
        show (wposList ((s.waitlist.filter
            (fun w => !(w.user = u && w.date = d))).map
              (fun w => if w.date = d && e.pos < w.pos then
                { w with pos := w.pos - 1 } else w)) d).Perm _
        rw [wposList_map_renumber]
        have hP : (wposList s.waitlist d).Perm
            (List.range' 1 (wposList s.waitlist d).length) := h.2 d
        have hPQ : (wposList s.waitlist d).Perm
            (e.pos :: wposList (s.waitlist.filter
              (fun w => !(w.user = u && w.date = d))) d) := by
          have h1 := wposList_perm hperm d
          rw [wposList_cons, if_pos hed] at h1
          exact h1
        have hcons := hPQ.symm.trans hP
        have hpmem : e.pos ∈ List.range' 1 (wposList s.waitlist d).length :=
          hcons.subset (List.mem_cons_self _ _)
        have hpb := List.mem_range'_1.mp hpmem
        have hQ : (wposList (s.waitlist.filter
            (fun w => !(w.user = u && w.date = d))) d).Perm
              ((List.range' 1 (wposList s.waitlist d).length).erase e.pos) :=
          (hcons.trans (List.perm_cons_erase hpmem)).cons_inv
        have herase : (List.range' 1
            (wposList s.waitlist d).length).erase e.pos
            = List.range' 1 (e.pos - 1) ++ List.range' (e.pos + 1)
                ((wposList s.waitlist d).length - e.pos) := by
          rw [List.erase_range']
          have e1 : min (wposList s.waitlist d).length (e.pos - 1)
              = e.pos - 1 := by omega
          have e2 : max 1 (e.pos + 1) = e.pos + 1 := by omega
          have e3 : min 1 (e.pos + 1) + (wposList s.waitlist d).length
              - (e.pos + 1) = (wposList s.waitlist d).length - e.pos := by
            omega
          rw [e1, e2, e3]
        have hlen : (wposList (s.waitlist.filter
            (fun w => !(w.user = u && w.date = d))) d).length
            = (wposList s.waitlist d).length - 1 := by
          have hle := hcons.length_eq
          simp only [List.length_cons, List.length_range'] at hle
          omega
        rw [List.length_map, hlen]
        refine (hQ.map _).trans ?_
        rw [herase, List.map_append]
        have c3a : (List.range' 1 (e.pos - 1)).map
            (fun x => if e.pos < x then x - 1 else x)
            = List.range' 1 (e.pos - 1) := by
          refine (List.map_congr_left ?_).trans (List.map_id _)
          intro x hx
          have hxb := List.mem_range'_1.mp hx
          have hnlt : ¬ (e.pos < x) := by omega
          simp [hnlt]
        have c3b : (List.range' (e.pos + 1)
              ((wposList s.waitlist d).length - e.pos)).map
            (fun x => if e.pos < x then x - 1 else x)
            = List.range' e.pos ((wposList s.waitlist d).length - e.pos) := by
          have hmc : ∀ x ∈ List.range' (e.pos + 1)
              ((wposList s.waitlist d).length - e.pos),
              (fun x => if e.pos < x then x - 1 else x) x
                = (fun x => x - 1) x := by
            intro x hx
            have hxb := List.mem_range'_1.mp hx
            have hlt : e.pos < x := by omega
            simp [hlt]
          rw [List.map_congr_left hmc]
          have := @List.map_sub_range' 1 1 (e.pos + 1)
            ((wposList s.waitlist d).length - e.pos) (by omega)
          simpa using this
        rw [c3a, c3b]
        have h14 := List.range'_append_1 1 (e.pos - 1)
          ((wposList s.waitlist d).length - e.pos)
        have h15 : 1 + (e.pos - 1) = e.pos := by omega
        rw [h15] at h14
        rw [h14]
        have h16 : (wposList s.waitlist d).length - e.pos + (e.pos - 1)
            = (wposList s.waitlist d).length - 1 := by omega
        rw [h16]
      · show (wposList ((s.waitlist.filter
            (fun w => !(w.user = u && w.date = d))).map
              (fun w => if w.date = d && e.pos < w.pos then
                { w with pos := w.pos - 1 } else w)) d').Perm _
        rw [wposList_map_renumber_other _ d e.pos d' (fun hc => hd hc.symm),
          wposList_filter_key_other _ u d d' (fun hc => hd hc.symm)]
        exact h.2 d'

/-- Every waitlist operation preserves the invariant. -/
theorem winv_applyWOp (s : Parking.DB) (op : WOp) (h : winv s) :
    winv (applyWOp s op) := by
  cases op with
  | enqueue u d => exact winv_enqueue s u d h
  | removeUser u d => exact winv_removeFromWaitlist s u d h
  | dequeueHead d =>
    show winv (match s.getNextInWaitlist d with
      | some e => (s.removeFromWaitlist e.user d).2
      | none => s)
    cases hnext : s.getNextInWaitlist d with
    | none => exact h
    | some e => exact winv_removeFromWaitlist s e.user d h

/-- C6: starting from any store whose waitlist satisfies the invariant
(unique `(user, date)` keys; per-date positions a permutation of `1..N`),
any sequence of enqueue, remove, and dequeue-head operations preserves
it: positions for every date remain a contiguous `1..N` sequence with no
gaps and no duplicates. -/
theorem C6_waitlist_positions_contiguous (s : Parking.DB)
    (ops : List WOp) (h : winvB s) : winvB (applyWOps s ops) := by
  rw [winvB_iff_winv] at h ⊢
  induction ops generalizing s with
  | nil => exact h
  | cons op rest ih => exact ih (applyWOp s op) (winv_applyWOp s op h)

/-- Fixture for the C6 witness: an empty store. -/
def stC6 : Parking.DB :=
  { parkingSpots := [], fixedSpots := [], reservations := [],
    waitlist := [], releases := [] }

/-- Operation sequence for the C6 witness: three enqueues for date 3, a
mid-queue removal, a dequeue of the head, and an enqueue for another
date. -/
def opsC6 : List WOp :=
  [.enqueue 1 3, .enqueue 2 3, .enqueue 3 3, .removeUser 2 3,
   .dequeueHead 3, .enqueue 1 5, .enqueue 1 3]

/-- C6 witness: the invariant, evaluated after the concrete operation
sequence. -/
theorem C6_waitlist_positions_contiguous_witness :
    winvB (applyWOps stC6 opsC6) :=
  C6_waitlist_positions_contiguous stC6 opsC6 (by decide)

/-- Fixture for C7: user 1 already holds spot 5 for date 2; the waitlist is
empty. -/
def stC7 : Parking.DB :=
  { parkingSpots := [5], fixedSpots := [], reservations := [⟨1, 2, 5⟩],
    waitlist := [], releases := [] }

/-- The state `ParkingManager.addToWaitlist` produces from `stC7`. -/
def stC7' : Parking.DB :=
  { parkingSpots := [5], fixedSpots := [], reservations := [⟨1, 2, 5⟩],
    waitlist := [⟨1, 2, 1⟩], releases := [] }

/-- C7 counterexample: user 1 holds a reservation for date 2, yet
enqueueing user 1 on the waitlist for date 2 is not rejected — a
WaitlistEntry is created and the user then holds both simultaneously. -/
theorem C7_counterexample_enqueue_with_reservation :
    (stC7.getReservation 1 2).isSome = true
    ∧ ParkingManager.addToWaitlist stC7 1 2 = some stC7'
    ∧ (⟨1, 2, 1⟩ : WEntry) ∈ stC7'.waitlist
    ∧ (stC7'.getReservation 1 2).isSome = true := by
  refine ⟨by decide, by decide, by decide, by decide⟩

/-- C7 (amended): the enqueue path (`ParkingManager.addToWaitlist`, i.e.
`Database.addToWaitlist`) never consults the reservations table; when the
user holds a Reservation for the date and merely has no waitlist row yet
(the only constraint the insert checks, `UNIQUE(user_id, date)` on
`waitlist`), the enqueue succeeds and the user ends up holding a
Reservation and a WaitlistEntry for the same date at once. -/
theorem C7_enqueue_ignores_reservations (s : Parking.DB) (userId : Nat)
    (date : Int)
    (hres : (s.getReservation userId date).isSome = true)
    (hw : ∀ w ∈ s.waitlist, ¬(w.user = userId ∧ w.date = date)) :
    ∃ s', ParkingManager.addToWaitlist s userId date = some s'
      ∧ (s'.getReservation userId date).isSome = true
      ∧ ∃ w ∈ s'.waitlist, w.user = userId ∧ w.date = date := by
  have hany :
      s.waitlist.any (fun w => w.user = userId && w.date = date) = false := by
    rw [List.any_eq_false]
    intro w hwmem
    simpa using hw w hwmem
  refine ⟨{ s with waitlist :=
      s.waitlist ++ [⟨userId, date, (s.posList date).foldr max 0 + 1⟩] },
    ?_, ?_, ?_⟩
  · unfold ParkingManager.addToWaitlist Parking.DB.addToWaitlist
    rw [if_neg (by simp [hany])]
  · simpa [Parking.DB.getReservation] using hres
  · exact ⟨⟨userId, date, (s.posList date).foldr max 0 + 1⟩,
      List.mem_append_right _ (List.mem_singleton.mpr rfl), rfl, rfl⟩

/-- C7 witness: the amended claim applied to the concrete state `stC7`. -/
theorem C7_enqueue_ignores_reservations_witness :
    ∃ s', ParkingManager.addToWaitlist stC7 1 2 = some s'
      ∧ (s'.getReservation 1 2).isSome = true
      ∧ ∃ w ∈ s'.waitlist, w.user = 1 ∧ w.date = 2 :=
  C7_enqueue_ignores_reservations stC7 1 2 (by decide) (by decide)

/-- Fixture for C8: user 7 is already buffered (alone) in the lottery
queue for date 8. -/
def sysC8 : QueueManager.Sys :=
  ⟨{ parkingSpots := [], fixedSpots := [], reservations := [],
     waitlist := [], releases := [] }, [(8, [7])]⟩

/-- C8 counterexample: the duplicate rejection ("Ya estás en la cola …")
interpolates no position — `reportedPosition` is `none`, not the user's
current position 1, contrary to the claim's "returning the user's current
queue position". -/
theorem C8_counterexample_no_position_reported :
    (QueueManager.addToQueue sysC8 7 8).1 = .alreadyQueued
    ∧ QueueManager.reportedPosition (QueueManager.addToQueue sysC8 7 8).1
        ≠ some 1
    ∧ QueueManager.queueFor sysC8 8 = [7] := by
  refine ⟨by decide, by decide, by decide⟩

/-- C8 (amended): a second request from a user already buffered for the
date is rejected with the duplicate outcome and the buffer (indeed the
whole system state) is left unchanged; the rejection message does not
carry the user's queue position (only the initial enqueue reports a
position). -/
theorem C8_duplicate_rejected_buffer_unchanged (sys : QueueManager.Sys)
    (userId : Nat) (date : Int)
    (h : userId ∈ QueueManager.queueFor sys date) :
    QueueManager.addToQueue sys userId date = (.alreadyQueued, sys)
    ∧ QueueManager.reportedPosition
        (QueueManager.addToQueue sys userId date).1 = none := by
  have hany : (QueueManager.queueFor sys date).any (· = userId) = true := by
    rw [List.any_eq_true]
    exact ⟨userId, h, by simp⟩
  constructor
  · unfold QueueManager.addToQueue
    rw [if_pos (by simpa using hany)]
  · unfold QueueManager.addToQueue
    rw [if_pos (by simpa using hany)]
    rfl

/-- C8 witness: the amended claim applied to the concrete buffer
`sysC8`. -/
theorem C8_duplicate_rejected_buffer_unchanged_witness :
    QueueManager.addToQueue sysC8 7 8 = (.alreadyQueued, sysC8)
    ∧ QueueManager.reportedPosition
        (QueueManager.addToQueue sysC8 7 8).1 = none :=
  C8_duplicate_rejected_buffer_unchanged sysC8 7 8 (by decide)

/-- C10: removing a user who has no waitlist entry for the date resolves
with 0 and returns the store unchanged — nothing is deleted and no other
entry is renumbered, for any date. -/
theorem C10_remove_absent_is_noop (s : Parking.DB) (userId : Nat)
    (date : Int)
    (h : ∀ w ∈ s.waitlist, ¬(w.user = userId ∧ w.date = date)) :
    s.removeFromWaitlist userId date = (0, s) := by
  have hfind :
      s.waitlist.find? (fun w => w.user = userId && w.date = date) = none := by
    rw [List.find?_eq_none]
    intro w hw
    simpa using h w hw
  unfold Parking.DB.removeFromWaitlist
  rw [hfind]

/-- Fixture for the C10 witness: one unrelated waitlist entry. -/
def stC10 : Parking.DB :=
  { parkingSpots := [], fixedSpots := [], reservations := [],
    waitlist := [⟨2, 0, 1⟩], releases := [] }

/-- C10 witness: user 1 has no entry for date 0, so removal is a no-op. -/
theorem C10_remove_absent_is_noop_witness :
    stC10.removeFromWaitlist 1 0 = (0, stC10) :=
  C10_remove_absent_is_noop stC10 1 0 (by decide)

end Parking
